import Mathlib

/-!
# large_data_transfer: header codec, frame transfer and the accept loop

A shallow embedding of `client.c` and `server.c`.

Conventions of the embedding (LP64, as on the Linux targets the program is
written for):

* a `char` is a natural number (its code); buffers and C strings are lists;
* `int` is 32 bits wide, `size_t` is 64 bits unsigned, `ssize_t` 64 bits signed;
  the conversions the program performs between them are `toInt32` and `toSize`;
* byte counters (`total`, `sent`, `received`) are naturals: a transfer of
  `2^63` bytes or more is out of reach, so `ssize_t` never wraps on them;
* the kernel side of a socket and the C library side of a `FILE` are explicit
  values: what the peer delivers, how much room each `send` finds, how much
  each `fwrite` stores;
* loops that the C code can spin in for ever take a fuel argument and report
  `Outcome.unfinished` when it runs out.
-/

namespace LargeDataTransfer

/-! ## Constants and machine integers -/

/-- `#define BUFSIZE 4096` (both files). -/
def BUFSIZE : Nat := 4096

/-- `#define HEADER_SIZE 16` (both files). -/
def HEADER_SIZE : Nat := 16

/-- The codes of the characters of a string literal. -/
def cstr (s : String) : List Nat := s.toList.map Char.toNat

/-- `#define FILE_PATH "./received_files"` (server.c). -/
def FILE_PATH : List Nat := cstr "./received_files"

/-- `#define FILE_EXTENSION ".dat"` (server.c). -/
def FILE_EXTENSION : List Nat := cstr ".dat"

/-- Conversion of an integer to `int`: the low 32 bits, two's complement. -/
def toInt32 (v : Int) : Int :=
  let r := v % 4294967296
  if r < 2147483648 then r else r - 4294967296

/-- Conversion of an integer to `size_t`: reduction modulo `2^64`. -/
def toSize (v : Int) : Nat := (v % 18446744073709551616).toNat

/-- Saturation of `strtol` at `LONG_MIN` and `LONG_MAX`. -/
def clampLong (v : Int) : Int :=
  if 9223372036854775807 < v then 9223372036854775807
  else if v < -9223372036854775808 then -9223372036854775808
  else v

/-- What a function call came to: a returned `ssize_t`, a read of a variable
that was never assigned (no defined value), or fuel exhausted inside the loop. -/
inductive Outcome where
  | returned (v : Int)
  | undefined
  | unfinished
  deriving DecidableEq, Repr

/-- One request recorded while a loop runs: the number of bytes asked of
`fread`, `send` or `recv`, and the value of `total` at that moment. -/
structure Req where
  asked : Nat
  counted : Nat
  deriving DecidableEq, Repr

/-! ## C library text conversions -/

/-- Decimal digits of `n`, most significant first, put in front of `acc`;
the fuel bounds the number of digits produced. -/
def decDigitsAux : Nat → Nat → List Nat → List Nat
  | 0, _, acc => acc
  | fuel + 1, n, acc =>
    if n < 10 then (48 + n) :: acc
    else decDigitsAux fuel (n / 10) ((48 + n % 10) :: acc)

/-- Decimal digits of `n` as character codes, at least one digit. -/
def decDigits (n : Nat) : List Nat := decDigitsAux (n + 1) n []

/-- The text `printf` produces for the conversion `%0<width>d` applied to the
`int` value `v`: sign, then zeros up to the minimum field width, then digits. -/
def fmt_0d (width : Nat) (v : Int) : List Nat :=
  let ds := decDigits v.natAbs
  if v < 0 then 45 :: (List.replicate (width - (ds.length + 1)) 48 ++ ds)
  else List.replicate (width - ds.length) 48 ++ ds

/-- `isspace` in the C locale: space, `\t`, `\n`, `\v`, `\f`, `\r`. -/
def isspace (c : Nat) : Bool := c == 32 || (9 ≤ c && c ≤ 13)

/-- `isdigit`. -/
def isdigit (c : Nat) : Bool := 48 ≤ c && c ≤ 57

/-- Leading white space is dropped by `strtol`. -/
def skipSpace : List Nat → List Nat
  | [] => []
  | c :: cs => if isspace c then skipSpace cs else c :: cs

/-- The digit run at the head of the text, accumulated in base ten; the scan
stops at the first character that is not a digit (the terminator included). -/
def scanDigits : List Nat → Nat → Nat
  | [], acc => acc
  | c :: cs, acc => if isdigit c then scanDigits cs (acc * 10 + (c - 48)) else acc

/-- `strtol(s, NULL, 10)`: white space, an optional sign, digits; zero when no
digit follows. The text is the array handed over: a scan that no character
stops ends with the array. -/
def strtol (s : List Nat) : Int :=
  match skipSpace s with
  | 45 :: cs => clampLong (-(scanDigits cs 0 : Int))
  | 43 :: cs => clampLong (scanDigits cs 0 : Int)
  | cs => clampLong (scanDigits cs 0 : Int)

/-- `atoi(s)`, that is `(int) strtol(s, NULL, 10)`. -/
def atoi (s : List Nat) : Int := toInt32 (strtol s)

/-! ## Sockets and files -/

/-- What the peer makes available on a connected socket, in order: a segment
of bytes, or a failure of the next `recv`. The end of the list is the peer
closing the connection. -/
inductive RecvEvent where
  | data (bs : List Nat)
  | error
  deriving DecidableEq, Repr

/-- The receiving side of a connected socket. -/
abbrev Sock := List RecvEvent

/-- `recv(soc, buf, len, 0)`: `none` is the return value `-1`; otherwise the
bytes stored in `buf`, at most `len` of the segment at the head (the rest of
the segment stays queued); no bytes means the peer has closed. A segment
without bytes carries nothing and is passed over. -/
def recv : Sock → Nat → Option (List Nat) × Sock
  | [], _ => (some [], [])
  | RecvEvent.error :: rest, _ => (none, rest)
  | RecvEvent.data [] :: rest, len => recv rest len
  | RecvEvent.data (b :: bs) :: rest, len =>
    (some ((b :: bs).take len),
      if (b :: bs).drop len = [] then rest else RecvEvent.data ((b :: bs).drop len) :: rest)

/-- All the bytes still queued on a socket. -/
def bytesOf : Sock → List Nat
  | [] => []
  | RecvEvent.data bs :: rest => bs ++ bytesOf rest
  | RecvEvent.error :: rest => bytesOf rest

/-- The sending side of a connected socket: `script` gives the result of the
successive `send` calls (`none` for `-1`, `some k` for room for `k` bytes; past
its end every call is accepted in full), `wire` the bytes accepted so far. -/
structure SendSock where
  script : List (Option Nat)
  wire : List Nat
  deriving DecidableEq, Repr

/-- `send(soc, data, len, 0)` with `data` the `len` bytes handed over. -/
def send (soc : SendSock) (data : List Nat) : Option Nat × SendSock :=
  match soc.script with
  | [] => (some data.length, { soc with wire := soc.wire ++ data })
  | none :: rest => (none, { soc with script := rest })
  | some k :: rest => (some (min k data.length), { script := rest, wire := soc.wire ++ data.take k })

/-- A stream opened for reading: the bytes not yet read and the error
indicator of the stream. -/
structure InFile where
  unread : List Nat
  ioerr : Bool
  deriving DecidableEq, Repr

/-- `fread(buf, 1, nmemb, fp)`: the items read; none at end of file or on error. -/
def fread (nmemb : Nat) (fp : InFile) : List Nat × InFile :=
  if fp.ioerr then ([], fp)
  else (fp.unread.take nmemb, { fp with unread := fp.unread.drop nmemb })

/-- A stream opened for writing: the bytes stored and, for the successive
`fwrite` calls, how many items each can store (past the end of `quota`: all). -/
structure OutFile where
  data : List Nat
  quota : List Nat
  deriving DecidableEq, Repr

/-- `fwrite(buf, 1, received, fp)`: the number of items stored. -/
def fwrite (items : List Nat) (fp : OutFile) : Nat × OutFile :=
  match fp.quota with
  | [] => (items.length, { fp with data := fp.data ++ items })
  | q :: rest => (min q items.length, { data := fp.data ++ items.take q, quota := rest })

/-! ## client.c -/

/-- Result of `send_file`. -/
structure SendFileResult where
  ret : Outcome
  soc : SendSock
  fp : InFile
  trace : List Req
  deriving DecidableEq, Repr

/-- The `while (total < fp_size)` loop of `send_file` (client.c 121-139).
`sent` is `none` until the first `send` assigns it. -/
def send_file_loop : Nat → SendSock → InFile → Nat → Nat → Option Nat → List Req → SendFileResult
  | 0, soc, fp, _, _, _, tr => ⟨Outcome.unfinished, soc, fp, tr⟩
  | fuel + 1, soc, fp, fp_size, total, sent, tr =>
    if total < fp_size then
      let nmemb := min BUFSIZE (fp_size - total)
      let rd := fread nmemb fp
      let tr1 := tr ++ [⟨nmemb, total⟩]
      if rd.1.length ≠ 0 then
        match send soc rd.1 with
        | (none, soc1) => ⟨Outcome.returned (-1), soc1, rd.2, tr1 ++ [⟨rd.1.length, total⟩]⟩
        | (some s, soc1) =>
          send_file_loop fuel soc1 rd.2 fp_size (total + s) (some s) (tr1 ++ [⟨rd.1.length, total⟩])
      else if rd.2.ioerr then ⟨Outcome.returned (-1), soc, rd.2, tr1⟩
      else
        match sent with
        | none => ⟨Outcome.undefined, soc, rd.2, tr1⟩
        | some s => send_file_loop fuel soc rd.2 fp_size (total + s) sent tr1
    else ⟨Outcome.returned total, soc, fp, tr⟩

/-- `ssize_t send_file(int soc, FILE *fp, size_t fp_size)` (client.c 113-142). -/
def send_file (fuel : Nat) (soc : SendSock) (fp : InFile) (fp_size : Nat) : SendFileResult :=
  send_file_loop fuel soc fp fp_size 0 none []

/-- The header buffer after `sprintf(header, "%015d", file_size)` (client.c
151-152): the conversion `%d` takes its argument as an `int`, so the text is
that of the low 32 bits of `file_size`; `sprintf` appends the terminator. -/
def sprintf_header (file_size : Nat) : List Nat :=
  fmt_0d (HEADER_SIZE - 1) (toInt32 file_size) ++ [0]

/-- The `while (total < HEADER_SIZE)` loop of `send_header` (client.c 154-161);
every call sends from the start of `header`. -/
def send_header_loop : Nat → SendSock → List Nat → Nat → Outcome × SendSock
  | 0, soc, _, _ => (Outcome.unfinished, soc)
  | fuel + 1, soc, header, total =>
    if total < HEADER_SIZE then
      let size := min HEADER_SIZE (HEADER_SIZE - total)
      match send soc (header.take size) with
      | (none, soc1) => (Outcome.returned (-1), soc1)
      | (some s, soc1) => send_header_loop fuel soc1 header (total + s)
    else (Outcome.returned total, soc)

/-- `ssize_t send_header(int soc, size_t file_size)` (client.c 145-164). -/
def send_header (fuel : Nat) (soc : SendSock) (file_size : Nat) : Outcome × SendSock :=
  send_header_loop fuel soc (sprintf_header file_size) 0

/-! ## server.c -/

/-- Result of `recv_file`. -/
structure RecvFileResult where
  ret : Outcome
  soc : Sock
  fp : OutFile
  trace : List Req
  deriving DecidableEq, Repr

/-- The `while (total < file_size)` loop of `recv_file` (server.c 198-214). -/
def recv_file_loop : Nat → Sock → OutFile → Nat → Nat → List Req → RecvFileResult
  | 0, soc, fp, _, _, tr => ⟨Outcome.unfinished, soc, fp, tr⟩
  | fuel + 1, soc, fp, file_size, total, tr =>
    if total < file_size then
      let len := min BUFSIZE (file_size - total)
      let tr1 := tr ++ [⟨len, total⟩]
      match recv soc len with
      | (none, soc1) => ⟨Outcome.returned (-1), soc1, fp, tr1⟩
      | (some bs, soc1) =>
        if bs.length = 0 then ⟨Outcome.returned total, soc1, fp, tr1⟩
        else
          let wr := fwrite bs fp
          if wr.1 = 0 then ⟨Outcome.returned (-1), soc1, wr.2, tr1⟩
          else recv_file_loop fuel soc1 wr.2 file_size (total + bs.length) tr1
    else ⟨Outcome.returned total, soc, fp, tr⟩

/-- `ssize_t recv_file(int soc, FILE *fp, size_t file_size)` (server.c 190-216).
Every pass through the loop that does not leave it adds at least one byte to
`total`, so `file_size + 1` units of fuel are never used up. -/
def recv_file (soc : Sock) (fp : OutFile) (file_size : Nat) : RecvFileResult :=
  recv_file_loop (file_size + 1) soc fp file_size 0 []

/-- Result of `recv_header`: the return value, the value left in `*file_size`,
the socket, and the final contents of `buf`. -/
structure HeaderResult where
  ret : Outcome
  file_size : Nat
  acc : Sock
  buf : List Nat
  deriving DecidableEq, Repr

/-- The code after the loop of `recv_header` (server.c 239-241): whatever the
loop left in `*file_size` is replaced by `atoi(buf)`, converted to `size_t`. -/
def recv_header_exit (acc : Sock) (buf : List Nat) (_file_size : Nat) (total : Nat) : HeaderResult :=
  ⟨Outcome.returned total, toSize (atoi buf), acc, buf⟩

/-- The `while (total < HEADER_SIZE)` loop of `recv_header` and the code after
it (server.c 227-241). Every `recv` stores at the start of `buf`. -/
def recv_header_loop : Nat → Sock → List Nat → Nat → Nat → HeaderResult
  | 0, acc, buf, file_size, _ => ⟨Outcome.unfinished, file_size, acc, buf⟩
  | fuel + 1, acc, buf, file_size, total =>
    if total < HEADER_SIZE then
      let size := min HEADER_SIZE (HEADER_SIZE - total)
      match recv acc size with
      | (none, acc1) => ⟨Outcome.returned (-1), file_size, acc1, buf⟩
      | (some bs, acc1) =>
        if bs.length = 0 then recv_header_exit acc1 buf 0 total
        else recv_header_loop fuel acc1 (bs ++ buf.drop bs.length) file_size (total + bs.length)
    else recv_header_exit acc buf file_size total

/-- `ssize_t recv_header(int acc, size_t *file_size)` (server.c 220-242);
`file_size` is the value `*file_size` holds on entry. At most `HEADER_SIZE`
passes through the loop add a byte, so the fuel given is never used up. -/
def recv_header (acc : Sock) (file_size : Nat) : HeaderResult :=
  recv_header_loop (HEADER_SIZE + 1) acc (List.replicate HEADER_SIZE 0) file_size 0

/-- `char *make_file_path(int file_num)` (server.c 246-253): the text of
`"%s/file_%03d%s"`, far shorter than the 256 bytes allocated. -/
def make_file_path (file_num : Int) : List Nat :=
  FILE_PATH ++ cstr "/file_" ++ fmt_0d 3 file_num ++ FILE_EXTENSION

/-- One accepted connection: what the peer delivers, whether `fopen` of the
destination succeeds, and the `fwrite` quota of the destination. -/
structure Conn where
  inbound : Sock
  fopen_ok : Bool
  quota : List Nat
  deriving DecidableEq, Repr

/-- One return of `accept`: `-1` (with `errno == EINTR` or not) or a connection. -/
inductive AcceptEvent where
  | failed (eintr : Bool)
  | accepted (c : Conn)
  deriving DecidableEq, Repr

/-- How one pass through the body of the accept loop ended: `accept` failed;
the decoded size was 0; `fopen` failed; `recv_file` returned `-1`; `recv_file`
did not return (`recv_file_returns` shows this never happens); the sizes
differ; the sizes agree. -/
inductive Served where
  | accept_failed
  | not_sent
  | fopen_failed (path : List Nat)
  | recv_failed (path : List Nat) (fp : OutFile)
  | hung (path : List Nat)
  | size_mismatch (path : List Nat) (received : Int) (fp : OutFile)
  | success (path : List Nat) (received : Int) (fp : OutFile)
  deriving DecidableEq, Repr

/-- The variables of `accept_loop` that live across passes, and the record of
the passes made so far. -/
structure ServerState where
  file_num : Int
  file_size : Nat
  log : List Served
  deriving DecidableEq, Repr

/-- The body of the endless loop of `accept_loop` (server.c 136-185).
`file_num++` is written as the successor; `accept_loop_from` checks that the
result is still an `int`. -/
def accept_iter (st : ServerState) : AcceptEvent → ServerState
  | AcceptEvent.failed _ => { st with log := st.log ++ [Served.accept_failed] }
  | AcceptEvent.accepted c =>
    let h := recv_header c.inbound st.file_size
    let file_size := h.file_size
    if file_size = 0 then
      { st with file_size := file_size, log := st.log ++ [Served.not_sent] }
    else
      let path := make_file_path st.file_num
      if c.fopen_ok = false then
        { st with file_size := file_size, log := st.log ++ [Served.fopen_failed path] }
      else
        let r := recv_file h.acc ⟨[], c.quota⟩ file_size
        match r.ret with
        | Outcome.returned v =>
          if v = -1 then
            { st with file_size := file_size, log := st.log ++ [Served.recv_failed path r.fp] }
          else if toSize v ≠ file_size then
            { file_num := st.file_num + 1, file_size := file_size,
              log := st.log ++ [Served.size_mismatch path v r.fp] }
          else
            { file_num := st.file_num + 1, file_size := file_size,
              log := st.log ++ [Served.success path v r.fp] }
        | _ => { st with file_size := file_size, log := st.log ++ [Served.hung path] }

/-- The destination path a pass opened, when it opened one. -/
def Served.path : Served → Option (List Nat)
  | Served.fopen_failed _ => none
  | Served.recv_failed p _ => some p
  | Served.hung p => some p
  | Served.size_mismatch p _ _ => some p
  | Served.success p _ _ => some p
  | _ => none


/-! ## Requirements on the environment used in the statements -/

/-- Every scripted `send` is accepted in full: no failure, and room for a
whole buffer each time. -/
def FullAccept (script : List (Option Nat)) : Prop :=
  ∀ c ∈ script, ∃ k, c = some k ∧ BUFSIZE ≤ k

/-- Every scripted `fwrite` stores all the items it is given. -/
def FullStore (quota : List Nat) : Prop := ∀ q ∈ quota, BUFSIZE ≤ q

/-- No `recv` on the socket fails: the peer delivers its segments and closes. -/
def NoError (soc : Sock) : Prop := ∀ e ∈ soc, e ≠ RecvEvent.error

theorem toInt32_of_lt (n : Nat) (h : n < 2147483648) : toInt32 (n : Int) = n := by
  simp only [toInt32]
  split <;> omega

theorem toInt32_bounds (v : Int) : -2147483648 ≤ toInt32 v ∧ toInt32 v < 2147483648 := by
  simp only [toInt32]
  split <;> omega

theorem toInt32_natAbs_lt (v : Int) : (toInt32 v).natAbs < 10 ^ 10 := by
  have h := toInt32_bounds v
  omega

theorem scanDigits_zeros (k : Nat) (l : List Nat) :
    scanDigits (List.replicate k 48 ++ l) 0 = scanDigits l 0 := by
  induction k with
  | zero => simp
  | succ k ih => simpa [List.replicate_succ, scanDigits, isdigit] using ih

theorem scanDigits_decDigitsAux (fuel n : Nat) (rest : List Nat) (h : n < fuel) :
    scanDigits (decDigitsAux fuel n rest) 0 = scanDigits rest n := by
  induction fuel generalizing n rest with
  | zero => omega
  | succ f ih =>
    simp only [decDigitsAux]
    split
    · have h1 : isdigit (48 + n) = true := by simp [isdigit]; omega
      simp [scanDigits, h1]
    · rw [ih (n / 10) _ (by omega)]
      have h1 : isdigit (48 + n % 10) = true := by simp [isdigit]; omega
      have h2 : n / 10 * 10 + (48 + n % 10 - 48) = n := by omega
      simp only [scanDigits, h1, if_true, h2]

theorem decDigitsAux_length_le (fuel n k : Nat) (acc : List Nat) (h : n < fuel)
    (hk : n < 10 ^ (k + 1)) : (decDigitsAux fuel n acc).length ≤ k + 1 + acc.length := by
  induction fuel generalizing n k acc with
  | zero => omega
  | succ f ih =>
    simp only [decDigitsAux]
    split
    · simp; omega
    · cases k with
      | zero => simp at hk; omega
      | succ j =>
        have h1 : n / 10 < 10 ^ (j + 1) := by
          apply Nat.div_lt_of_lt_mul
          rw [pow_succ] at hk
          omega
        have := ih (n / 10) j ((48 + n % 10) :: acc) (by omega) h1
        simp at this
        omega

theorem decDigitsAux_digits (fuel n : Nat) (acc : List Nat) (h : n < fuel) :
    ∀ c ∈ decDigitsAux fuel n acc, isdigit c = true ∨ c ∈ acc := by
  induction fuel generalizing n acc with
  | zero => omega
  | succ f ih =>
    simp only [decDigitsAux]
    split
    · intro c hc
      rcases List.mem_cons.mp hc with rfl | hc
      · left; simp [isdigit]; omega
      · right; exact hc
    · intro c hc
      rcases ih (n / 10) _ (by omega) c hc with h1 | h1
      · left; exact h1
      · rcases List.mem_cons.mp h1 with rfl | h2
        · left; simp [isdigit]; omega
        · right; exact h2

theorem decDigits_length_le (n k : Nat) (hk : n < 10 ^ (k + 1)) : (decDigits n).length ≤ k + 1 := by
  have := decDigitsAux_length_le (n + 1) n k [] (by omega) hk
  simpa [decDigits] using this

theorem decDigits_digits (n : Nat) : ∀ c ∈ decDigits n, isdigit c = true := by
  intro c hc
  rcases decDigitsAux_digits (n + 1) n [] (by omega) c hc with h | h
  · exact h
  · simp at h

theorem scanDigits_decDigits (n : Nat) (rest : List Nat) :
    scanDigits (decDigits n ++ rest) 0 = scanDigits rest n := by
  have key : ∀ fuel m (acc : List Nat), m < fuel →
      decDigitsAux fuel m acc = decDigitsAux fuel m [] ++ acc := by
    intro fuel
    induction fuel with
    | zero => intro m acc h; omega
    | succ f ih =>
      intro m acc h
      simp only [decDigitsAux]
      split
      · simp
      · rw [ih (m / 10) ((48 + m % 10) :: acc) (by omega), ih (m / 10) [48 + m % 10] (by omega)]
        simp
  rw [decDigits, ← key (n + 1) n rest (by omega)]
  exact scanDigits_decDigitsAux (n + 1) n rest (by omega)

theorem fmt_0d_length (v : Int) (hv : v.natAbs < 10 ^ 10) : (fmt_0d 15 v).length = 15 := by
  have h := decDigits_length_le v.natAbs 9 hv
  simp only [fmt_0d]
  split <;> simp <;> omega

theorem sprintf_header_length (file_size : Nat) :
    (sprintf_header file_size).length = HEADER_SIZE := by
  simp [sprintf_header, HEADER_SIZE, fmt_0d_length _ (toInt32_natAbs_lt _)]

theorem fmt_0d_chars (w : Nat) (v : Int) : ∀ c ∈ fmt_0d w v, isdigit c = true ∨ c = 45 := by
  intro c hc
  simp only [fmt_0d] at hc
  split at hc
  · rcases List.mem_cons.mp hc with h | h
    · right; exact h
    · rcases List.mem_append.mp h with h | h
      · left; rw [(List.mem_replicate.mp h).2]; decide
      · left; exact decDigits_digits _ c h
  · rcases List.mem_append.mp hc with h | h
    · left; rw [(List.mem_replicate.mp h).2]; decide
    · left; exact decDigits_digits _ c h

theorem fmt_0d_nonneg_digits (w : Nat) (v : Int) (hv : 0 ≤ v) : ∀ c ∈ fmt_0d w v, isdigit c = true := by
  intro c hc
  simp only [fmt_0d] at hc
  split at hc
  · omega
  · rcases List.mem_append.mp hc with h | h
    · rw [(List.mem_replicate.mp h).2]; decide
    · exact decDigits_digits _ c h

theorem scanDigits_fmt_0d (w n : Nat) (rest : List Nat) :
    scanDigits (fmt_0d w (n : Int) ++ rest) 0 = scanDigits rest n := by
  have h : ¬ ((n : Int) < 0) := by omega
  simp only [fmt_0d, h, if_false, Int.natAbs_ofNat, List.append_assoc]
  rw [scanDigits_zeros, scanDigits_decDigits]

theorem scanDigits_stop (c : Nat) (cs : List Nat) (a : Nat) (hc : isdigit c = false) :
    scanDigits (c :: cs) a = a := by
  simp [scanDigits, hc]

theorem scanDigits_no_digit (l : List Nat) (a : Nat) (h : ∀ c ∈ l, isdigit c = false) :
    scanDigits l a = a := by
  cases l with
  | nil => rfl
  | cons c cs => exact scanDigits_stop c cs a (h c (List.mem_cons_self _ _))

theorem mem_of_mem_skipSpace (l : List Nat) : ∀ c ∈ skipSpace l, c ∈ l := by
  induction l with
  | nil => intro c hc; simp [skipSpace] at hc
  | cons b bs ih =>
    intro c hc
    simp only [skipSpace] at hc
    split at hc
    · exact List.mem_cons_of_mem _ (ih c hc)
    · exact hc

theorem clampLong_of_small (v : Int) (h1 : -9223372036854775808 ≤ v) (h2 : v ≤ 9223372036854775807) :
    clampLong v = v := by
  simp only [clampLong]
  split
  · omega
  · split
    · omega
    · rfl

theorem strtol_no_digit (s : List Nat) (h : ∀ c ∈ s, isdigit c = false) : strtol s = 0 := by
  have hs : ∀ c ∈ skipSpace s, isdigit c = false := fun c hc => h c (mem_of_mem_skipSpace s c hc)
  unfold strtol
  split
  · rename_i cs heq
    rw [heq] at hs
    rw [scanDigits_no_digit cs 0 (fun c hc => hs c (List.mem_cons_of_mem _ hc))]
    decide
  · rename_i cs heq
    rw [heq] at hs
    rw [scanDigits_no_digit cs 0 (fun c hc => hs c (List.mem_cons_of_mem _ hc))]
    decide
  · rw [scanDigits_no_digit _ 0 hs]
    decide

theorem strtol_head (b : Nat) (bs : List Nat) (hsp : isspace b = false) (h45 : b ≠ 45)
    (h43 : b ≠ 43) : strtol (b :: bs) = clampLong (scanDigits (b :: bs) 0 : Int) := by
  have hs : skipSpace (b :: bs) = b :: bs := by simp [skipSpace, hsp]
  unfold strtol
  rw [hs]
  split
  · rename_i cs heq
    exact absurd (List.cons.inj heq).1 h45
  · rename_i cs heq
    exact absurd (List.cons.inj heq).1 h43
  · rfl

theorem atoi_no_digit (s : List Nat) (h : ∀ c ∈ s, isdigit c = false) : atoi s = 0 := by
  rw [atoi, strtol_no_digit s h]
  decide

theorem atoi_bad_head (b : Nat) (bs : List Nat) (hd : isdigit b = false) (hsp : isspace b = false)
    (h45 : b ≠ 45) (h43 : b ≠ 43) : atoi (b :: bs) = 0 := by
  rw [atoi, strtol_head b bs hsp h45 h43, scanDigits_stop b bs 0 hd]
  decide

theorem atoi_sprintf_header (n : Nat) (h : n < 2147483648) : atoi (sprintf_header n) = n := by
  have hlen := sprintf_header_length n
  have hscan : scanDigits (sprintf_header n) 0 = n := by
    rw [sprintf_header, toInt32_of_lt n h, scanDigits_fmt_0d]
    simp [scanDigits, isdigit]
  cases hs : sprintf_header n with
  | nil => rw [hs] at hlen; simp [HEADER_SIZE] at hlen
  | cons b bs =>
    have hb : isdigit b = true := by
      have hmem : b ∈ fmt_0d (HEADER_SIZE - 1) (toInt32 (n : Int)) := by
        have h15 := fmt_0d_length (toInt32 (n : Int)) (toInt32_natAbs_lt _)
        cases hf : fmt_0d (HEADER_SIZE - 1) (toInt32 (n : Int)) with
        | nil =>
          have hf2 : fmt_0d 15 (toInt32 (n : Int)) = [] := hf
          rw [hf2] at h15
          simp at h15
        | cons x xs =>
          rw [sprintf_header, hf] at hs
          simp at hs
          rw [hs.1]
          exact List.mem_cons_self _ _
      exact fmt_0d_nonneg_digits _ _ (by rw [toInt32_of_lt n h]; omega) b hmem
    have hsp : isspace b = false := by
      simp [isdigit, isspace] at *
      omega
    have h45 : b ≠ 45 := by
      intro hb2; rw [hb2] at hb; simp [isdigit] at hb
    have h43 : b ≠ 43 := by
      intro hb2; rw [hb2] at hb; simp [isdigit] at hb
    rw [atoi, strtol_head b bs hsp h45 h43, ← hs, hscan, clampLong_of_small _ (by omega) (by omega)]
    exact toInt32_of_lt n h

theorem toSize_of_lt (n : Nat) (h : n < 18446744073709551616) : toSize (n : Int) = n := by
  simp only [toSize]
  omega

/-! ## `recv` -/

theorem recv_whole_segment (field : List Nat) (rest : Sock) (len : Nat) (hne : field ≠ [])
    (hlen : field.length ≤ len) : recv (RecvEvent.data field :: rest) len = (some field, rest) := by
  cases field with
  | nil => exact absurd rfl hne
  | cons b bs =>
    simp only [recv]
    rw [List.take_of_length_le hlen, List.drop_of_length_le hlen]
    simp

theorem recv_header_loop_returns (fuel : Nat) (acc : Sock) (buf : List Nat) (fs total : Nat)
    (hfuel : HEADER_SIZE - total < fuel) :
    ∃ v : Int, (recv_header_loop fuel acc buf fs total).ret = Outcome.returned v := by
  induction fuel generalizing acc buf total with
  | zero => omega
  | succ f ih =>
    by_cases hlt : total < HEADER_SIZE
    · rcases hrecv : recv acc (min HEADER_SIZE (HEADER_SIZE - total)) with ⟨_ | bs, s1⟩
      · exact ⟨-1, by simp only [recv_header_loop, hlt, if_true, hrecv]⟩
      · by_cases hz : bs.length = 0
        · exact ⟨total, by simp only [recv_header_loop, hlt, if_true, hrecv, hz, recv_header_exit]⟩
        · obtain ⟨v, hv⟩ := ih s1 (bs ++ buf.drop bs.length) (total + bs.length) (by omega)
          exact ⟨v, by simp only [recv_header_loop, hlt, if_true, hrecv, hz, if_false, hv]⟩
    · exact ⟨total, by simp only [recv_header_loop, hlt, if_false, recv_header_exit]⟩

/-- The fuel `recv_header` gives its loop is never used up. -/
theorem recv_header_returns (acc : Sock) (fs : Nat) :
    ∃ v : Int, (recv_header acc fs).ret = Outcome.returned v :=
  recv_header_loop_returns _ acc _ fs 0 (by simp [HEADER_SIZE])

theorem recv_header_single (field : List Nat) (rest : Sock) (fs0 : Nat)
    (hlen : field.length = HEADER_SIZE) :
    recv_header (RecvEvent.data field :: rest) fs0 =
      ⟨Outcome.returned 16, toSize (atoi field), rest, field⟩ := by
  have hne : field ≠ [] := by
    intro h; rw [h] at hlen; simp [HEADER_SIZE] at hlen
  have hlen2 : field.length = 16 := hlen
  have hr := recv_whole_segment field rest 16 hne (by omega)
  simp [recv_header, recv_header_loop, HEADER_SIZE, hr, hlen2, recv_header_exit]

/-- Below `2^31` the header codec round-trips: the size decoded from the
header formatted for `n`, received in one piece, is `n`. -/
theorem header_round_trip_below_int_max (n fs0 : Nat) (rest : Sock) (h : n < 2147483648) :
    (recv_header (RecvEvent.data (sprintf_header n) :: rest) fs0).file_size = n := by
  rw [recv_header_single _ rest fs0 (sprintf_header_length n)]
  simp only [atoi_sprintf_header n h]
  exact toSize_of_lt n (by omega)

theorem recv_none_spec (soc : Sock) (len : Nat) (s1 : Sock) (h : recv soc len = (none, s1)) :
    bytesOf s1 = bytesOf soc ∧ ¬ NoError soc := by
  induction soc with
  | nil => simp [recv] at h
  | cons e rest ih =>
    cases e with
    | error =>
      simp only [recv, Prod.mk.injEq, true_and] at h
      subst h
      exact ⟨rfl, fun hn => hn _ (List.mem_cons_self _ _) rfl⟩
    | data bs =>
      cases bs with
      | nil =>
        simp only [recv] at h
        have := ih h
        refine ⟨by simpa [bytesOf] using this.1, fun hn => this.2 ?_⟩
        intro e he
        exact hn e (List.mem_cons_of_mem _ he)
      | cons b bs => simp [recv] at h

theorem recv_some_spec (soc : Sock) (len : Nat) (bs : List Nat) (s1 : Sock)
    (h : recv soc len = (some bs, s1)) :
    bs.length ≤ len ∧ bytesOf soc = bs ++ bytesOf s1 ∧ (NoError soc → NoError s1) ∧
      (bs = [] → 0 < len → bytesOf soc = []) := by
  induction soc with
  | nil =>
    simp only [recv, Prod.mk.injEq, Option.some.injEq] at h
    obtain ⟨h1, h2⟩ := h
    subst h1 h2
    simp [bytesOf]
  | cons e rest ih =>
    cases e with
    | error => simp [recv] at h
    | data seg =>
      cases seg with
      | nil =>
        simp only [recv] at h
        obtain ⟨h1, h2, h3, h4⟩ := ih h
        refine ⟨h1, by simpa [bytesOf] using h2, ?_, by simpa [bytesOf] using h4⟩
        intro hn
        exact h3 (fun e he => hn e (List.mem_cons_of_mem _ he))
      | cons b seg =>
        simp only [recv, Prod.mk.injEq, Option.some.injEq] at h
        obtain ⟨h1, h2⟩ := h
        subst h1
        refine ⟨?_, ?_, ?_, ?_⟩
        · simp [List.length_take]
        · by_cases hd : List.drop len (b :: seg) = []
          · rw [if_pos hd] at h2
            subst h2
            have := List.take_append_drop len (b :: seg)
            rw [hd, List.append_nil] at this
            simp only [bytesOf]
            rw [this]
          · rw [if_neg hd] at h2
            subst h2
            simp only [bytesOf]
            rw [← List.append_assoc, List.take_append_drop]
        · intro hn
          have hrest : NoError rest := fun e he => hn e (List.mem_cons_of_mem _ he)
          by_cases hd : List.drop len (b :: seg) = []
          · rw [if_pos hd] at h2
            subst h2
            exact hrest
          · rw [if_neg hd] at h2
            subst h2
            intro e he
            rcases List.mem_cons.mp he with rfl | he
            · intro hc; cases hc
            · exact hrest e he
        · intro hnil hpos
          cases len with
          | zero => omega
          | succ k => simp at hnil

theorem fwrite_full (items : List Nat) (fp : OutFile) (hq : FullStore fp.quota)
    (hlen : items.length ≤ BUFSIZE) :
    (fwrite items fp).1 = items.length ∧ (fwrite items fp).2.data = fp.data ++ items ∧
      FullStore (fwrite items fp).2.quota := by
  unfold fwrite
  cases hquota : fp.quota with
  | nil =>
    simp only
    refine ⟨trivial, trivial, ?_⟩
    intro q hq2
    cases hq2
  | cons q rest =>
    have hq1 : BUFSIZE ≤ q := hq q (by rw [hquota]; exact List.mem_cons_self _ _)
    simp only
    refine ⟨by omega, ?_, ?_⟩
    · rw [List.take_of_length_le (by omega)]
    · intro x hx
      exact hq x (by rw [hquota]; exact List.mem_cons_of_mem _ hx)

/-- With no failing `recv` and a destination that stores all it is given,
`recv_file` reads the first `file_size - total` queued bytes (all of them when
the peer closes earlier), appends them to the destination and counts them. -/
theorem recv_file_loop_data (fuel : Nat) (soc : Sock) (fp : OutFile) (file_size total : Nat)
    (tr : List Req) (hfuel : file_size - total < fuel) (hne : NoError soc)
    (hq : FullStore fp.quota) :
    (recv_file_loop fuel soc fp file_size total tr).ret =
        Outcome.returned ((total + min (file_size - total) (bytesOf soc).length : Nat) : Int) ∧
      (recv_file_loop fuel soc fp file_size total tr).fp.data =
        fp.data ++ (bytesOf soc).take (file_size - total) ∧
      bytesOf (recv_file_loop fuel soc fp file_size total tr).soc =
        (bytesOf soc).drop (file_size - total) := by
  induction fuel generalizing soc fp total tr with
  | zero => omega
  | succ f ih =>
    by_cases hlt : total < file_size
    · rcases hrecv : recv soc (min BUFSIZE (file_size - total)) with ⟨_ | bs, s1⟩
      · exact absurd hne (recv_none_spec soc _ s1 hrecv).2
      · obtain ⟨h1, h2, h3, h4⟩ := recv_some_spec soc _ bs s1 hrecv
        by_cases hz : bs.length = 0
        · have hbs : bs = [] := List.length_eq_zero.mp hz
          have hemp : bytesOf soc = [] := h4 hbs (by simp [BUFSIZE]; omega)
          have hs1 : bytesOf s1 = [] := by
            rw [hemp, hbs] at h2
            simpa using h2.symm
          simp [recv_file_loop, hlt, hrecv, hz, hemp, hs1]
        · have hw := fwrite_full bs fp hq (by omega)
          have hw1 : (fwrite bs fp).1 ≠ 0 := by rw [hw.1]; exact hz
          have hrec := ih s1 (fwrite bs fp).2 (total + bs.length)
            (tr ++ [⟨min BUFSIZE (file_size - total), total⟩]) (by omega) (h3 hne) hw.2.2
          simp only [recv_file_loop, hlt, if_true, hrecv, hz, if_false, hw1]
          obtain ⟨r1, r2, r3⟩ := hrec
          have hb : bs.length ≤ file_size - total := by omega
          refine ⟨?_, ?_, ?_⟩
          · rw [r1, h2]
            congr 1
            simp only [List.length_append]
            congr 1
            omega
          · rw [r2, hw.2.1, h2, List.append_assoc]
            congr 1
            rw [List.take_append_eq_append_take, List.take_of_length_le hb]
            congr 2
            omega
          · rw [r3, h2, List.drop_append_eq_append_drop, List.drop_of_length_le hb]
            simp only [List.nil_append]
            congr 1
            omega
    · have hzero : file_size - total = 0 := by omega
      simp [recv_file_loop, hlt, hzero]

/-- Whatever the peer and the destination do, `recv_file` returns, asks `recv`
for no more than the buffer and no more than what is still missing, and takes
no more than `file_size` bytes off the socket. -/
theorem recv_file_loop_bound (fuel : Nat) (soc : Sock) (fp : OutFile) (file_size total : Nat)
    (tr : List Req) (hfuel : file_size - total < fuel) (hle : total ≤ file_size)
    (htr : ∀ q ∈ tr, q.asked ≤ min BUFSIZE (file_size - q.counted)) :
    (∀ q ∈ (recv_file_loop fuel soc fp file_size total tr).trace,
        q.asked ≤ min BUFSIZE (file_size - q.counted)) ∧
      (∃ v : Int, (recv_file_loop fuel soc fp file_size total tr).ret = Outcome.returned v ∧
        v ≤ file_size ∧ (v = -1 ∨ (total : Int) ≤ v)) ∧
      (∃ consumed, bytesOf soc =
          consumed ++ bytesOf (recv_file_loop fuel soc fp file_size total tr).soc ∧
        total + consumed.length ≤ file_size) := by
  induction fuel generalizing soc fp total tr with
  | zero => omega
  | succ f ih =>
    have htr1 : ∀ q ∈ tr ++ [(⟨min BUFSIZE (file_size - total), total⟩ : Req)],
        q.asked ≤ min BUFSIZE (file_size - q.counted) := by
      intro q hq
      rcases List.mem_append.mp hq with h | h
      · exact htr q h
      · rw [List.mem_singleton.mp h]
    by_cases hlt : total < file_size
    · rcases hrecv : recv soc (min BUFSIZE (file_size - total)) with ⟨_ | bs, s1⟩
      · have hb := (recv_none_spec soc _ s1 hrecv).1
        simp only [recv_file_loop, hlt, if_true, hrecv]
        refine ⟨htr1, ⟨-1, rfl, by omega, Or.inl rfl⟩, ⟨[], by simp [hb], by simp; omega⟩⟩
      · obtain ⟨h1, h2, -, -⟩ := recv_some_spec soc _ bs s1 hrecv
        by_cases hz : bs.length = 0
        · simp only [recv_file_loop, hlt, if_true, hrecv, hz]
          refine ⟨htr1, ⟨total, rfl, by omega, Or.inr (le_refl _)⟩, ⟨bs, h2, by omega⟩⟩
        · by_cases hw : (fwrite bs fp).1 = 0
          · simp only [recv_file_loop, hlt, if_true, hrecv, hz, if_false, hw]
            refine ⟨htr1, ⟨-1, rfl, by omega, Or.inl rfl⟩, ⟨bs, h2, by omega⟩⟩
          · have hrec := ih s1 (fwrite bs fp).2 (total + bs.length)
              (tr ++ [⟨min BUFSIZE (file_size - total), total⟩]) (by omega) (by omega) htr1
            simp only [recv_file_loop, hlt, if_true, hrecv, hz, if_false, hw]
            obtain ⟨r1, ⟨v, r2, r3, r4⟩, ⟨cons, r5, r6⟩⟩ := hrec
            refine ⟨r1, ⟨v, r2, r3, ?_⟩, ⟨bs ++ cons, ?_, ?_⟩⟩
            · rcases r4 with r4 | r4
              · exact Or.inl r4
              · right; push_cast at r4; omega
            · rw [h2, r5, List.append_assoc]
            · simp only [List.length_append]; omega
    · simp only [recv_file_loop, hlt, if_false]
      refine ⟨htr, ⟨total, rfl, by omega, Or.inr (le_refl _)⟩, ⟨[], by simp, by simp; omega⟩⟩

/-! ## `send`, `send_file`, `send_header` -/

theorem send_full (soc : SendSock) (data : List Nat) (hfull : FullAccept soc.script)
    (hlen : data.length ≤ BUFSIZE) :
    ∃ s1, send soc data = (some data.length, s1) ∧ s1.wire = soc.wire ++ data ∧
      FullAccept s1.script := by
  unfold send
  cases hscript : soc.script with
  | nil =>
    refine ⟨_, rfl, rfl, ?_⟩
    simp only [hscript]
    intro c hc
    cases hc
  | cons c rest =>
    obtain ⟨k, hk1, hk2⟩ := hfull c (by rw [hscript]; exact List.mem_cons_self _ _)
    subst hk1
    refine ⟨⟨rest, soc.wire ++ data⟩, ?_, rfl, ?_⟩
    · simp only [Prod.mk.injEq, Option.some.injEq, SendSock.mk.injEq, true_and]
      exact ⟨by omega, by rw [List.take_of_length_le (by omega)]⟩
    · intro x hx
      exact hfull x (by rw [hscript]; exact List.mem_cons_of_mem _ hx)

/-- When every `send` is accepted in full and the file holds the bytes that
remain to be counted, `send_file` puts exactly those bytes on the wire and
returns `fp_size`. -/
theorem send_file_loop_full (fuel : Nat) (soc : SendSock) (fp : InFile) (fp_size total : Nat)
    (sent : Option Nat) (tr : List Req) (hfuel : fp_size - total < fuel)
    (hfull : FullAccept soc.script) (herr : fp.ioerr = false)
    (hlen : total + fp.unread.length = fp_size) :
    (send_file_loop fuel soc fp fp_size total sent tr).ret = Outcome.returned (fp_size : Int) ∧
      (send_file_loop fuel soc fp fp_size total sent tr).soc.wire = soc.wire ++ fp.unread := by
  induction fuel generalizing soc fp total sent tr with
  | zero => omega
  | succ f ih =>
    by_cases hlt : total < fp_size
    · have hrd : fread (min BUFSIZE (fp_size - total)) fp =
          (fp.unread.take (min BUFSIZE (fp_size - total)),
            { fp with unread := fp.unread.drop (min BUFSIZE (fp_size - total)) }) := by
        simp [fread, herr]
      have hl : (fp.unread.take (min BUFSIZE (fp_size - total))).length =
          min BUFSIZE (fp_size - total) := by
        rw [List.length_take]
        omega
      have hpos : 0 < min BUFSIZE (fp_size - total) := by
        simp [BUFSIZE]; omega
      obtain ⟨s1, hs1, hs2, hs3⟩ := send_full soc (fp.unread.take (min BUFSIZE (fp_size - total)))
        hfull (by rw [hl]; exact Nat.min_le_left _ _)
      have hnz : (fp.unread.take (min BUFSIZE (fp_size - total))).length ≠ 0 := by omega
      have hrec := ih s1 { fp with unread := fp.unread.drop (min BUFSIZE (fp_size - total)) }
        (total + (fp.unread.take (min BUFSIZE (fp_size - total))).length)
        (some (fp.unread.take (min BUFSIZE (fp_size - total))).length)
        (tr ++ [⟨min BUFSIZE (fp_size - total), total⟩] ++
          [⟨(fp.unread.take (min BUFSIZE (fp_size - total))).length, total⟩])
        (by omega) hs3 herr
        (by simp only [List.length_drop]; rw [hl]; omega)
      simp only [send_file_loop, hlt, if_true, hrd, ne_eq, hnz, not_false_eq_true, hs1]
      refine ⟨hrec.1, ?_⟩
      rw [hrec.2, hs2, List.append_assoc, List.take_append_drop]
    · have hnil : fp.unread = [] := List.length_eq_zero.mp (by omega)
      have heq : total = fp_size := by omega
      simp [send_file_loop, hlt, hnil, heq]

/-- Whatever the socket and the file do, and for as long as the loop runs,
`send_file` asks `fread` and `send` for no more than the buffer and no more
than what is still to be counted. -/
theorem send_file_loop_trace (fuel : Nat) (soc : SendSock) (fp : InFile) (fp_size total : Nat)
    (sent : Option Nat) (tr : List Req)
    (htr : ∀ q ∈ tr, q.asked ≤ min BUFSIZE (fp_size - q.counted)) :
    ∀ q ∈ (send_file_loop fuel soc fp fp_size total sent tr).trace,
      q.asked ≤ min BUFSIZE (fp_size - q.counted) := by
  induction fuel generalizing soc fp total sent tr with
  | zero => simpa [send_file_loop] using htr
  | succ f ih =>
    have hrdlen : (fread (min BUFSIZE (fp_size - total)) fp).1.length ≤
        min BUFSIZE (fp_size - total) := by
      unfold fread
      split
      · simp
      · simp only [List.length_take]
        exact Nat.min_le_left _ _
    have htr1 : ∀ q ∈ tr ++ [(⟨min BUFSIZE (fp_size - total), total⟩ : Req)],
        q.asked ≤ min BUFSIZE (fp_size - q.counted) := by
      intro q hq
      rcases List.mem_append.mp hq with h | h
      · exact htr q h
      · rw [List.mem_singleton.mp h]
    have htr2 : ∀ q ∈ tr ++ [(⟨min BUFSIZE (fp_size - total), total⟩ : Req)] ++
        [(⟨(fread (min BUFSIZE (fp_size - total)) fp).1.length, total⟩ : Req)],
        q.asked ≤ min BUFSIZE (fp_size - q.counted) := by
      intro q hq
      rcases List.mem_append.mp hq with h | h
      · exact htr1 q h
      · rw [List.mem_singleton.mp h]
        exact hrdlen
    by_cases hlt : total < fp_size
    · by_cases hnz : (fread (min BUFSIZE (fp_size - total)) fp).1.length = 0
      · by_cases he : (fread (min BUFSIZE (fp_size - total)) fp).2.ioerr = true
        · simpa [send_file_loop, hlt, hnz, he] using htr1
        · cases sent with
          | none => simpa [send_file_loop, hlt, hnz, he] using htr1
          | some s =>
            simp only [send_file_loop, hlt, if_true, ne_eq, hnz, not_true_eq_false, if_false, he]
            exact ih soc _ (total + s) (some s) _ htr1
      · rcases hsend : send soc (fread (min BUFSIZE (fp_size - total)) fp).1 with ⟨_ | s, s1⟩
        · simp only [send_file_loop, hlt, if_true, ne_eq, hnz, not_false_eq_true, hsend]
          exact htr2
        · simp only [send_file_loop, hlt, if_true, ne_eq, hnz, not_false_eq_true, hsend]
          exact ih s1 _ (total + s) (some s) _ htr2
    · simpa [send_file_loop, hlt] using htr

theorem send_header_full (fuel : Nat) (soc : SendSock) (header : List Nat) (hfuel : 2 ≤ fuel)
    (hfull : FullAccept soc.script) (hlen : header.length = HEADER_SIZE) :
    (send_header_loop fuel soc header 0).1 = Outcome.returned 16 ∧
      (send_header_loop fuel soc header 0).2.wire = soc.wire ++ header := by
  have hlen2 : header.length = 16 := hlen
  have htake : header.take 16 = header := List.take_of_length_le (by omega)
  obtain ⟨s1, hs1, hs2, -⟩ := send_full soc header hfull (by simp [BUFSIZE]; omega)
  rw [hlen2] at hs1
  obtain ⟨f, rfl⟩ : ∃ f, fuel = f + 2 := ⟨fuel - 2, by omega⟩
  simp [send_header_loop, HEADER_SIZE, htake, hs1, hs2]

/-! ## The accept loop -/

theorem recv_file_returns (soc : Sock) (fp : OutFile) (file_size : Nat) :
    ∃ v : Int, (recv_file soc fp file_size).ret = Outcome.returned v ∧ v ≤ file_size :=
  let h := recv_file_loop_bound (file_size + 1) soc fp file_size 0 [] (by omega) (by omega)
    (by intro q hq; cases hq)
  match h.2.1 with
  | ⟨v, h1, h2, _⟩ => ⟨v, h1, h2⟩

/-- C1. Body round trip: when every `send` is accepted in full, the stream
delivers the bytes sent in order in segments of any sizes and the destination
stores what it is given, `send_file` with the size of the file followed by
`recv_file` with the same declared size writes exactly the content of the file
to the destination, and both return that size. -/
theorem body_round_trip (content : List Nat) (fuel : Nat) (script : List (Option Nat))
    (soc : Sock) (quota : List Nat)
    (hfuel : content.length < fuel) (hfull : FullAccept script) (hne : NoError soc)
    (hwire : bytesOf soc =
      (send_file fuel ⟨script, []⟩ ⟨content, false⟩ content.length).soc.wire)
    (hq : FullStore quota) :
    (send_file fuel ⟨script, []⟩ ⟨content, false⟩ content.length).ret =
        Outcome.returned content.length ∧
      (send_file fuel ⟨script, []⟩ ⟨content, false⟩ content.length).soc.wire = content ∧
      (recv_file soc ⟨[], quota⟩ content.length).ret = Outcome.returned content.length ∧
      (recv_file soc ⟨[], quota⟩ content.length).fp.data = content := by
  have hs := send_file_loop_full fuel ⟨script, []⟩ ⟨content, false⟩ content.length 0 none []
    (by omega) hfull rfl (by simp)
  have hs2 : (send_file fuel ⟨script, []⟩ ⟨content, false⟩ content.length).soc.wire = content := by
    simpa [send_file] using hs.2
  have hb : bytesOf soc = content := by rw [hwire, hs2]
  have hr := recv_file_loop_data (content.length + 1) soc ⟨[], quota⟩ content.length 0 []
    (by omega) hne hq
  refine ⟨hs.1, hs2, ?_, ?_⟩
  · rw [recv_file, hr.1, hb]
    simp
  · rw [recv_file, hr.2.1, hb]
    simp

theorem body_round_trip_witness :
    (send_file 4 ⟨[some 5000], []⟩ ⟨[7, 8, 9], false⟩ 3).ret = Outcome.returned 3 ∧
      (recv_file [RecvEvent.data [7], RecvEvent.data [8, 9]] ⟨[], [4096]⟩ 3).ret =
        Outcome.returned 3 ∧
      (recv_file [RecvEvent.data [7], RecvEvent.data [8, 9]] ⟨[], [4096]⟩ 3).fp.data = [7, 8, 9] :=
  have h := body_round_trip [7, 8, 9] 4 [some 5000] [RecvEvent.data [7], RecvEvent.data [8, 9]]
    [4096] (by decide) (by simp [FullAccept, BUFSIZE]) (by simp [NoError]) (by decide)
    (by simp [FullStore, BUFSIZE])
  ⟨h.1, h.2.2.1, h.2.2.2⟩

/-- C2, evaluated at a file of 2 GiB: `send_header` formats the size
`2147483648` as the text `-00002147483648`, and `recv_header`, given those 16
bytes in one receive, sets the file size to `18446744071562067968`. -/
theorem header_round_trip_two_gib :
    send_header 2 ⟨[], []⟩ 2147483648 =
        (Outcome.returned 16, ⟨[], cstr "-00002147483648" ++ [0]⟩) ∧
      (recv_header [RecvEvent.data (send_header 2 ⟨[], []⟩ 2147483648).2.wire] 0).ret =
        Outcome.returned 16 ∧
      (recv_header [RecvEvent.data (send_header 2 ⟨[], []⟩ 2147483648).2.wire] 0).file_size =
        18446744071562067968 := by
  decide

/-- C3. Short-receive detection: when the peer delivers `K < N` bytes, in
segments of any sizes, and closes, `recv_file` with declared size `N` returns
`K` (neither `N` nor `-1`) with exactly those bytes appended to the
destination, and the pass of `accept_loop` whose header decoded to `N` takes
the size-mismatch branch. -/
theorem short_receive_detected (N K : Nat) (soc : Sock) (fp : OutFile) (st : ServerState)
    (c : Conn) (hK : K < N) (hne : NoError soc) (hbytes : (bytesOf soc).length = K)
    (hq : FullStore fp.quota) (hopen : c.fopen_ok = true) (hcq : FullStore c.quota)
    (hsize : (recv_header c.inbound st.file_size).file_size = N)
    (hacc : (recv_header c.inbound st.file_size).acc = soc) :
    (recv_file soc fp N).ret = Outcome.returned K ∧
      (recv_file soc fp N).ret ≠ Outcome.returned N ∧
      (recv_file soc fp N).ret ≠ Outcome.returned (-1) ∧
      (recv_file soc fp N).fp.data = fp.data ++ bytesOf soc ∧
      ∃ fp1, fp1.data = bytesOf soc ∧
        accept_iter st (AcceptEvent.accepted c) =
          { file_num := st.file_num + 1, file_size := N,
            log := st.log ++ [Served.size_mismatch (make_file_path st.file_num) K fp1] } := by
  have key : ∀ fp0 : OutFile, FullStore fp0.quota →
      (recv_file soc fp0 N).ret = Outcome.returned K ∧
        (recv_file soc fp0 N).fp.data = fp0.data ++ bytesOf soc := by
    intro fp0 hq0
    have hr := recv_file_loop_data (N + 1) soc fp0 N 0 [] (by omega) hne hq0
    constructor
    · rw [recv_file, hr.1, hbytes]
      congr 2
      omega
    · rw [recv_file, hr.2.1, List.take_of_length_le (by omega)]
  obtain ⟨k1, k2⟩ := key fp hq
  refine ⟨k1, ?_, ?_, k2, ?_⟩
  · rw [k1]
    intro h
    injection h with h
    omega
  · rw [k1]
    intro h
    injection h with h
    omega
  · obtain ⟨a1, a2⟩ := key ⟨[], c.quota⟩ hcq
    refine ⟨(recv_file soc ⟨[], c.quota⟩ N).fp, by simpa using a2, ?_⟩
    have hN : N ≠ 0 := by omega
    have hK1 : (K : Int) ≠ -1 := by omega
    have hK2 : toSize (K : Int) ≠ N := by
      simp only [toSize]
      omega
    simp only [accept_iter, hsize, hN, if_false, hopen, hacc, a1, hK1, hK2, ne_eq,
      not_false_eq_true, if_true, Bool.true_eq_false]

theorem short_receive_detected_witness :
    (recv_file [RecvEvent.data [1], RecvEvent.data [2]] ⟨[], []⟩ 5).ret = Outcome.returned 2 ∧
      (recv_file [RecvEvent.data [1], RecvEvent.data [2]] ⟨[], []⟩ 5).fp.data = [1, 2] ∧
      ∃ fp1, fp1.data = [1, 2] ∧
        accept_iter ⟨1, 0, []⟩ (AcceptEvent.accepted
            ⟨[RecvEvent.data (sprintf_header 5), RecvEvent.data [1], RecvEvent.data [2]], true, []⟩) =
          { file_num := 2, file_size := 5,
            log := [Served.size_mismatch (make_file_path 1) 2 fp1] } :=
  have h := short_receive_detected 5 2 [RecvEvent.data [1], RecvEvent.data [2]] ⟨[], []⟩
    ⟨1, 0, []⟩
    ⟨[RecvEvent.data (sprintf_header 5), RecvEvent.data [1], RecvEvent.data [2]], true, []⟩
    (by decide) (by simp [NoError]) (by decide) (by simp [FullStore]) rfl (by simp [FullStore])
    (by decide) (by decide)
  ⟨h.1, h.2.2.2.1, h.2.2.2.2⟩

/-- C4, evaluated on a file of ten bytes whose first `send` takes three of the
ten bytes offered: `send_file` returns 12, and the socket has accepted the
three bytes `1, 2, 3` and nothing else. -/
theorem send_file_short_send :
    (send_file 20 ⟨[some 3], []⟩ ⟨[1, 2, 3, 4, 5, 6, 7, 8, 9, 10], false⟩ 10).ret =
        Outcome.returned 12 ∧
      (send_file 20 ⟨[some 3], []⟩ ⟨[1, 2, 3, 4, 5, 6, 7, 8, 9, 10], false⟩ 10).soc.wire =
        [1, 2, 3] ∧
      (send_file 20 ⟨[some 3], []⟩ ⟨[1, 2, 3, 4, 5, 6, 7, 8, 9, 10], false⟩ 10).fp.unread = [] := by
  decide

/-- C6, evaluated on the header of a file of 123 bytes: received in one piece
it decodes to 123; received as 14 bytes and then 2 bytes, `recv_header` still
returns 16 but sets the file size to 3, the second piece having overwritten the
start of the buffer. -/
theorem recv_header_split_receive :
    (recv_header [RecvEvent.data (sprintf_header 123)] 0).file_size = 123 ∧
      (recv_header [RecvEvent.data ((sprintf_header 123).take 14),
          RecvEvent.data ((sprintf_header 123).drop 14)] 0).ret = Outcome.returned 16 ∧
      (recv_header [RecvEvent.data ((sprintf_header 123).take 14),
          RecvEvent.data ((sprintf_header 123).drop 14)] 0).file_size = 3 ∧
      (recv_header [RecvEvent.data ((sprintf_header 123).take 14),
          RecvEvent.data ((sprintf_header 123).drop 14)] 0).buf =
        cstr "3" ++ [0] ++ cstr "000000000012" ++ [0, 0] := by
  decide

/-- A 16-byte field received in one piece decodes to zero when it holds a
terminator and no decimal digit, or when its first byte is not a digit, a sign
or white space: `recv_header` returns 16 with the file size 0, and the pass of
`accept_loop` records "not sent", opens no destination and keeps `file_num`. -/
theorem malformed_header_one_receive (field : List Nat) (rest : Sock) (st : ServerState)
    (c : Conn) (hlen : field.length = HEADER_SIZE)
    (hbad : ((∀ b ∈ field, isdigit b = false) ∧ 0 ∈ field) ∨
      (∃ b bs, field = b :: bs ∧ isdigit b = false ∧ isspace b = false ∧ b ≠ 45 ∧ b ≠ 43))
    (hin : c.inbound = RecvEvent.data field :: rest) :
    (recv_header c.inbound st.file_size).ret = Outcome.returned 16 ∧
      (recv_header c.inbound st.file_size).file_size = 0 ∧
      accept_iter st (AcceptEvent.accepted c) =
        { st with file_size := 0, log := st.log ++ [Served.not_sent] } := by
  have hz : atoi field = 0 := by
    rcases hbad with ⟨h, -⟩ | ⟨b, bs, rfl, hd, hsp, h45, h43⟩
    · exact atoi_no_digit field h
    · exact atoi_bad_head b bs hd hsp h45 h43
  have hr := recv_header_single field rest st.file_size hlen
  rw [hz] at hr
  have hzero : toSize 0 = 0 := by decide
  rw [hzero] at hr
  rw [hin, hr]
  refine ⟨rfl, rfl, ?_⟩
  simp only [accept_iter, hin, hr, if_true]

/-- C7, evaluated on the 16-byte field `x123456789abcdef`, whose first byte is
not a digit, a sign or white space: received in one piece it decodes to 0;
received as 1 byte and then 15 bytes, `recv_header` returns 16 with the file
size set to 123456789, the second piece having overwritten the start of the
buffer, and the pass of `accept_loop` opens the destination numbered 1 and
advances `file_num` to 2. -/
theorem recv_header_malformed_split :
    (recv_header [RecvEvent.data (cstr "x123456789abcdef")] 0).file_size = 0 ∧
      (recv_header [RecvEvent.data (cstr "x"), RecvEvent.data (cstr "123456789abcdef")] 0).ret =
        Outcome.returned 16 ∧
      (recv_header [RecvEvent.data (cstr "x"), RecvEvent.data (cstr "123456789abcdef")] 0).buf =
        cstr "123456789abcdef" ++ [0] ∧
      (recv_header [RecvEvent.data (cstr "x"),
          RecvEvent.data (cstr "123456789abcdef")] 0).file_size = 123456789 ∧
      accept_iter ⟨1, 0, []⟩ (AcceptEvent.accepted
          ⟨[RecvEvent.data (cstr "x"), RecvEvent.data (cstr "123456789abcdef")], true, []⟩) =
        ⟨2, 123456789, [Served.size_mismatch (make_file_path 1) 0 ⟨[], []⟩]⟩ := by
  decide

/-- For every file size the header buffer holds 15 characters, none of them
the terminator, followed by one terminator byte, 16 bytes in all, and when
sends are accepted in full `send_header` returns 16 having put those 16 bytes
on the wire; for a file size below `2^31` the 15 characters are decimal digits
that spell the file size, padded with zeros. -/
theorem send_header_width (file_size fuel : Nat) (soc : SendSock) (hfuel : 2 ≤ fuel)
    (hfull : FullAccept soc.script) :
    (sprintf_header file_size).length = HEADER_SIZE ∧
      (sprintf_header file_size).drop (HEADER_SIZE - 1) = [0] ∧
      (∀ ch ∈ (sprintf_header file_size).take (HEADER_SIZE - 1), ch ≠ 0) ∧
      (send_header fuel soc file_size).1 = Outcome.returned 16 ∧
      (send_header fuel soc file_size).2.wire = soc.wire ++ sprintf_header file_size ∧
      (file_size < 2147483648 →
        (∀ ch ∈ (sprintf_header file_size).take (HEADER_SIZE - 1), isdigit ch = true) ∧
          scanDigits (sprintf_header file_size) 0 = file_size) := by
  have h15 : (fmt_0d 15 (toInt32 (file_size : Int))).length = 15 :=
    fmt_0d_length _ (toInt32_natAbs_lt _)
  have htake : (sprintf_header file_size).take (HEADER_SIZE - 1) =
      fmt_0d 15 (toInt32 (file_size : Int)) := by
    show List.take 15 (fmt_0d 15 (toInt32 (file_size : Int)) ++ [0]) = _
    rw [List.take_append_of_le_length (by omega), List.take_of_length_le (by omega)]
  have hsend := send_header_full fuel soc (sprintf_header file_size) hfuel hfull
    (sprintf_header_length file_size)
  refine ⟨sprintf_header_length file_size, ?_, ?_, hsend.1, hsend.2, ?_⟩
  · show List.drop 15 (fmt_0d 15 (toInt32 (file_size : Int)) ++ [0]) = [0]
    rw [List.drop_append_of_le_length (by omega), List.drop_of_length_le (by omega)]
    rfl
  · rw [htake]
    intro ch hch
    rcases fmt_0d_chars 15 _ ch hch with h | h
    · intro h0; rw [h0] at h; simp [isdigit] at h
    · omega
  · intro hlt
    rw [htake]
    constructor
    · exact fmt_0d_nonneg_digits 15 _ (by rw [toInt32_of_lt file_size hlt]; omega)
    · rw [sprintf_header, toInt32_of_lt file_size hlt, scanDigits_fmt_0d]
      simp [scanDigits, isdigit]

/-- C8, evaluated at a file of 2 GiB: the header `send_header` formats and
sends is 16 bytes, but its text is `-00002147483648`: the first character is a
minus sign and the 15 characters are not all decimal digits, where the
zero-padded decimal text of the size is `000002147483648`. -/
theorem send_header_two_gib :
    sprintf_header 2147483648 = cstr "-00002147483648" ++ [0] ∧
      send_header 2 ⟨[], []⟩ 2147483648 =
        (Outcome.returned 16, ⟨[], cstr "-00002147483648" ++ [0]⟩) ∧
      ¬ (∀ ch ∈ (sprintf_header 2147483648).take (HEADER_SIZE - 1), isdigit ch = true) ∧
      sprintf_header 2147483648 ≠ cstr "000002147483648" ++ [0] := by
  decide

/-- C9. Chunk bound: whatever `send`, `fread`, `recv` and `fwrite` return,
every chunk `send_file` asks of `fread` or hands to `send`, and every chunk
`recv_file` asks of `recv`, is at most `min(BUFSIZE, total_length - total)`;
`recv_file` returns, takes at most `file_size` bytes off the socket (what the
peer sent beyond stays queued) and its return value is at most `file_size`. -/
theorem chunk_bound (fuel : Nat) (ssoc : SendSock) (src : InFile) (fp_size : Nat) (soc : Sock)
    (fp : OutFile) (file_size : Nat) :
    (∀ q ∈ (send_file fuel ssoc src fp_size).trace,
        q.asked ≤ min BUFSIZE (fp_size - q.counted)) ∧
      (∀ q ∈ (recv_file soc fp file_size).trace,
        q.asked ≤ min BUFSIZE (file_size - q.counted)) ∧
      (∃ consumed, bytesOf soc = consumed ++ bytesOf (recv_file soc fp file_size).soc ∧
        consumed.length ≤ file_size) ∧
      (∃ v : Int, (recv_file soc fp file_size).ret = Outcome.returned v ∧ v ≤ file_size) := by
  have hs := send_file_loop_trace fuel ssoc src fp_size 0 none [] (by intro q hq; cases hq)
  have hr := recv_file_loop_bound (file_size + 1) soc fp file_size 0 [] (by omega) (by omega)
    (by intro q hq; cases hq)
  obtain ⟨r1, ⟨v, r2, r3, -⟩, ⟨cons, r4, r5⟩⟩ := hr
  exact ⟨hs, r1, ⟨cons, r4, by omega⟩, ⟨v, r2, r3⟩⟩

/-- C10, evaluated on a peer that closes after the first 15 bytes of the header
of a file of 123 bytes: `recv_header` returns 15 with the file size set to 123,
and the pass of `accept_loop` opens the destination numbered 1 and ends in the
size-mismatch branch. A peer that closes before any byte does give size 0. -/
theorem recv_header_peer_close :
    (recv_header [RecvEvent.data ((sprintf_header 123).take 15)] 0).ret = Outcome.returned 15 ∧
      (recv_header [RecvEvent.data ((sprintf_header 123).take 15)] 0).file_size = 123 ∧
      accept_iter ⟨1, 0, []⟩ (AcceptEvent.accepted
          ⟨[RecvEvent.data ((sprintf_header 123).take 15)], true, []⟩) =
        ⟨2, 123, [Served.size_mismatch (make_file_path 1) 0 ⟨[], []⟩]⟩ ∧
      (recv_header [] 7).file_size = 0 := by
  decide

end LargeDataTransfer
